import Mathlib

/-!
Verification of the Zeitig background command-processing worker.

Shallow embedding of:
- `src/state.rs`: `Action`, `Subject`, `Setup`, `TimeTable`, `SpentTime`
  (its `Display` and `Data::same` implementations);
- `src/controller/backend.rs`: the `BackendCommand` type, the worker loop
  spawned by `BackendController::init`, `BackendController::handle_command`,
  and the UI-thread controller shim in `BackendController::event`.

Rust machine integers: the durations involved are `std::time::Duration`
values (u64 seconds, sub-second nanoseconds); we model a duration as a
total nanosecond count in `Nat`, with `asSecs` the whole-second part.
Overflow is irrelevant to the claims (no arithmetic near 2^64 occurs).

The backend (`Backend` trait: `setup`, `create_action`, `create_subject`,
`add_session`, `update_time`) and the druid `ExtEventSink` are external
collaborators; they are modelled as oracles: `beh k` says whether the k-th
backend call fails (and with which message), `sinkOk p` says whether the
p-th `submit_command` on the sink succeeds.  The worker's observable
behaviour is the trace of backend calls and sink posts.
-/

namespace Zeitig

/-- An action name: `Action(Arc<String>)` from `src/state.rs`; equality by value. -/
structure Action where
  name : String
deriving DecidableEq, Repr

/-- A subject name: `Subject(Arc<String>)` from `src/state.rs`; equality by value. -/
structure Subject where
  name : String
deriving DecidableEq, Repr

/-- The `Setup(Action, Subject)` pair from `src/state.rs`, the key of the
time table.  The spec's glossary calls this pair the *topic*. -/
structure Setup where
  action : Action
  subject : Subject
deriving DecidableEq, Repr

/-- A `std::time::Duration`, modelled as a total count of nanoseconds. -/
structure Duration where
  nanos : Nat
deriving DecidableEq, Repr

/-- `Duration::as_secs`: the whole-second part of a duration. -/
def Duration.asSecs (d : Duration) : Nat :=
  d.nanos / 1000000000

/-- `SpentTime(Duration)` from `src/state.rs`: an accumulator wrapping a duration. -/
structure SpentTime where
  dur : Duration
deriving DecidableEq, Repr

/-- Whole seconds of a spent time (`self.0.as_secs()`). -/
def SpentTime.asSecs (t : SpentTime) : Nat :=
  t.dur.asSecs

/-- `impl Default for SpentTime`: `SpentTime(Duration::from_secs(0))`. -/
def SpentTime.default : SpentTime :=
  ⟨⟨0⟩⟩

/-- `impl Display for SpentTime` from `src/state.rs`:
`total = as_secs(); hours = total / 60 / 60; minutes = (total / 60) % 60;
seconds = total % 60;` rendered `"{hours}h {minutes}m {seconds}s"`. -/
def SpentTime.display (t : SpentTime) : String :=
  let total := t.dur.asSecs
  let hours := total / 60 / 60
  let minutes := (total / 60) % 60
  let seconds := total % 60
  toString hours ++ "h " ++ toString minutes ++ "m " ++ toString seconds ++ "s"

/-- `impl Data for SpentTime` from `src/state.rs`: change detection compares
`self.0.as_secs() == other.0.as_secs()`. -/
def SpentTime.same (a b : SpentTime) : Bool :=
  a.dur.asSecs == b.dur.asSecs

/-- Modelled from the spec: `SpentTime` "supports accumulation (`+`)"; the
`impl Add` used by the controller shim (`past_duration + session.duration()`
in `src/controller/backend.rs`) is not under `src/`.  Durations add. -/
def SpentTime.add (a b : SpentTime) : SpentTime :=
  ⟨⟨a.dur.nanos + b.dur.nanos⟩⟩

/-- `TimeTable(Arc<HashMap<Setup, SpentTime>>)` from `src/state.rs`,
modelled as an association list from `Setup` keys to `SpentTime`. -/
structure TimeTable where
  entries : List (Setup × SpentTime)
deriving DecidableEq, Repr

/-- `TimeTable::get` from `src/state.rs`:
`self.0.get(&Setup(action, subject)).cloned().unwrap_or_default()`. -/
def TimeTable.get (tt : TimeTable) (action : Action) (subject : Subject) : SpentTime :=
  ((tt.entries.find? (fun e => e.1 == Setup.mk action subject)).map Prod.snd).getD
    SpentTime.default

/-- A `DateTime` timestamp; opaque to every claim, modelled as a `Nat`. -/
structure DateTime where
  stamp : Nat
deriving DecidableEq, Repr

/-- A finished session, per the data model (`Session` is constructed in
`src/main.rs` with fields `action`, `subject`, `started`, `duration`,
`ended`; its declaration is not under `src/`). -/
structure Session where
  action : Action
  subject : Subject
  started : DateTime
  duration : SpentTime
  ended : DateTime
deriving DecidableEq, Repr

/-- Modelled from the spec: the `topic` of a session, the (action, subject)
pair used by `session.topic` in `src/controller/backend.rs` (the field's
declaration is not under `src/`). -/
def Session.topic (s : Session) : Setup :=
  ⟨s.action, s.subject⟩

/-- The `BackendCommand` enum from `src/controller/backend.rs`. -/
inductive BackendCommand
  | addAction (name : String)
  | addSubject (name : String)
  | addSession (session : Session) (total : SpentTime)
  | stop
deriving DecidableEq, Repr

/-- The `Continue` enum from `src/controller/backend.rs`. -/
inductive Continue
  | yes
  | no
deriving DecidableEq, Repr

/-- One call made against the `Backend` trait object owned by the worker. -/
inductive BackendCall
  | createAction (name : String)
  | createSubject (name : String)
  | addSession (session : Session)
  | updateTime (topic : Setup) (total : SpentTime)
deriving DecidableEq, Repr

/-- One event posted through the `ExtEventSink` back to the UI
(the selectors `ACTION_ADDED`, `SUBJECT_ADDED`, `ERROR`, `STOPPED`). -/
inductive BackendEvent
  | actionAdded (a : Action)
  | subjectAdded (s : Subject)
  | error (msg : String)
  | stopped
deriving DecidableEq, Repr

/-- A backend behaviour oracle: `beh k = some msg` means the k-th backend
call (counted from 0 across the whole run) fails with message `msg`;
`beh k = none` means it succeeds.  `create_action`/`create_subject`
return the canonical handle wrapping the given name on success. -/
abbrev BackendBeh := Nat → Option String

/-- A sink oracle: `sinkOk p` tells whether the p-th `submit_command`
on the `ExtEventSink` (counted from 0 across the whole run) succeeds. -/
abbrev SinkBeh := Nat → Bool

/-- Modelled display text of druid's `ExtEventError` (the foreign error
value produced when the sink is closed; its exact text is external). -/
def extEventSinkErrorMsg : String :=
  "external event sink closed"

deriving instance DecidableEq for Except

/-- Result of one `handle_command` invocation: the backend calls it made,
the sink posts it attempted (with delivery success), and its Rust return
value `Result<Continue, Box<dyn Error>>`. -/
structure HandleResult where
  calls : List BackendCall
  posts : List (BackendEvent × Bool)
  result : Except String Continue
deriving DecidableEq, Repr

/-- `BackendController::handle_command` from `src/controller/backend.rs`:
`AddAction`: `create_action(&name)?` then `submit_command(ACTION_ADDED, action)?`;
`AddSubject`: symmetric; `AddSession`: `add_session(&session)?` then
`update_time(&session.topic, &total_duration)?` with no sink post;
`Stop`: `return Ok(Continue::No)` with no backend call.
`c` and `p` are the numbers of backend calls and sink posts made so far. -/
def handleCommand (beh : BackendBeh) (sinkOk : SinkBeh) (c p : Nat) :
    BackendCommand → HandleResult
  | .addAction name =>
    match beh c with
    | some msg => ⟨[.createAction name], [], .error msg⟩
    | none =>
      if sinkOk p then
        ⟨[.createAction name], [(.actionAdded ⟨name⟩, true)], .ok .yes⟩
      else
        ⟨[.createAction name], [(.actionAdded ⟨name⟩, false)], .error extEventSinkErrorMsg⟩
  | .addSubject name =>
    match beh c with
    | some msg => ⟨[.createSubject name], [], .error msg⟩
    | none =>
      if sinkOk p then
        ⟨[.createSubject name], [(.subjectAdded ⟨name⟩, true)], .ok .yes⟩
      else
        ⟨[.createSubject name], [(.subjectAdded ⟨name⟩, false)], .error extEventSinkErrorMsg⟩
  | .addSession session total =>
    match beh c with
    | some msg => ⟨[.addSession session], [], .error msg⟩
    | none =>
      match beh (c + 1) with
      | some msg => ⟨[.addSession session, .updateTime session.topic total], [], .error msg⟩
      | none => ⟨[.addSession session, .updateTime session.topic total], [], .ok .yes⟩
  | .stop => ⟨[], [], .ok .no⟩

/-- How the worker loop in `BackendController::init` ends (or fails to). -/
inductive LoopOutcome
  /-- `handle_command` returned `Ok(Continue::No)`: `Stop` was dequeued
  and the loop breaks. -/
  | stopRequested
  /-- posting an `ERROR` event failed: the loop breaks early. -/
  | sinkClosed
  /-- `recv()` returned `Err` (channel closed with the queue drained):
  the `expect` panics and the thread unwinds. -/
  | queueClosed
  /-- the queue is drained but the channel is still open: the worker
  blocks in `recv()` waiting for the next command. -/
  | blocked
deriving DecidableEq, Repr

/-- Observable record of a worker-loop run: backend-call trace, sink-post
trace (each attempt with its delivery success), the commands dequeued,
the commands never dequeued, and how the loop ended. -/
structure WorkerRun where
  calls : List BackendCall
  posts : List (BackendEvent × Bool)
  processed : List BackendCommand
  remaining : List BackendCommand
  outcome : LoopOutcome
deriving DecidableEq, Repr

/-- The `loop` body inside the thread spawned by `BackendController::init`:
`recv()` the next command (an `mpsc::Receiver` yields every buffered
command before reporting closure, so `closed` matters only once `cmds`
is exhausted); on `Ok(Continue::Yes)` continue; on `Ok(Continue::No)`
break; on `Err(err)` submit an `ERROR` event and break iff that post
fails.  `c`/`p` count backend calls / sink posts made so far. -/
def workerLoop (beh : BackendBeh) (sinkOk : SinkBeh) (closed : Bool) :
    Nat → Nat → List BackendCommand → WorkerRun
  | _, _, [] => ⟨[], [], [], [], if closed then .queueClosed else .blocked⟩
  | c, p, cmd :: rest =>
    let h := handleCommand beh sinkOk c p cmd
    match h.result with
    | .ok .yes =>
      let r := workerLoop beh sinkOk closed (c + h.calls.length) (p + h.posts.length) rest
      ⟨h.calls ++ r.calls, h.posts ++ r.posts, cmd :: r.processed, r.remaining, r.outcome⟩
    | .ok .no => ⟨h.calls, h.posts, [cmd], rest, .stopRequested⟩
    | .error msg =>
      let pErr := p + h.posts.length
      if sinkOk pErr then
        let r := workerLoop beh sinkOk closed (c + h.calls.length) (pErr + 1) rest
        ⟨h.calls ++ r.calls, h.posts ++ [(.error msg, true)] ++ r.posts,
          cmd :: r.processed, r.remaining, r.outcome⟩
      else
        ⟨h.calls, h.posts ++ [(.error msg, false)], [cmd], rest, .sinkClosed⟩

/-- The whole thread closure spawned by `BackendController::init`: run the
loop from empty traces; after the loop breaks (via `Stop` or via a failed
error post) attempt to submit one `STOPPED` event, whose own failure is
only logged.  When the loop ends by the `recv().expect(..)` panic, the
unwinding skips the `STOPPED` submit; when the loop is still blocked in
`recv()`, nothing further has happened yet. -/
def workerThread (beh : BackendBeh) (sinkOk : SinkBeh) (closed : Bool)
    (cmds : List BackendCommand) : WorkerRun :=
  let r := workerLoop beh sinkOk closed 0 0 cmds
  match r.outcome with
  | .stopRequested => { r with posts := r.posts ++ [(.stopped, sinkOk r.posts.length)] }
  | .sinkClosed => { r with posts := r.posts ++ [(.stopped, sinkOk r.posts.length)] }
  | .queueClosed => r
  | .blocked => r

/-- `BackendController::init` from `src/controller/backend.rs`, as seen by
its caller: `Sqlite::new(..).unwrap()` and `backend.setup().unwrap()` run
on the UI thread *before* `thread::spawn`; a failure of either panics the
startup routine (modelled as `Except.error`), so no worker thread is
spawned and no command is ever dequeued.  On success the spawned worker's
observable run is returned. -/
def initBackend (newErr setupErr : Option String) (beh : BackendBeh)
    (sinkOk : SinkBeh) (closed : Bool) (cmds : List BackendCommand) :
    Except String WorkerRun :=
  match newErr with
  | some e => .error e
  | none =>
    match setupErr with
    | some e => .error e
    | none => .ok (workerThread beh sinkOk closed cmds)

/-- The `ADD_SESSION` arm of `BackendController::event` (the UI-thread
controller shim): read the currently stored aggregate for the session's
topic, add the session's duration, and enqueue
`AddSession(session, total_duration)`. -/
def controllerAddSession (timeTable : TimeTable) (session : Session) : BackendCommand :=
  let pastDuration := timeTable.get session.topic.action session.topic.subject
  let totalDuration := pastDuration.add session.duration
  .addSession session totalDuration

/-- The always-succeeding backend oracle (a test double whose calls all succeed). -/
def behOk : BackendBeh := fun _ => none

/-- The backend oracle whose N-th call fails with `msg` and whose other calls succeed. -/
def failOnlyAt (n : Nat) (msg : String) : BackendBeh :=
  fun k => if k = n then some msg else none

/-- The sink oracle that accepts every post. -/
def sinkAll : SinkBeh := fun _ => true

/-- The backend calls a single command performs when none of them fails. -/
def cmdCallsOk : BackendCommand → List BackendCall
  | .addAction n => [.createAction n]
  | .addSubject n => [.createSubject n]
  | .addSession s t => [.addSession s, .updateTime s.topic t]
  | .stop => []

/-- The success event(s) of a single command (`AddSession` succeeds silently). -/
def cmdEventOk : BackendCommand → List BackendEvent
  | .addAction n => [.actionAdded ⟨n⟩]
  | .addSubject n => [.subjectAdded ⟨n⟩]
  | .addSession _ _ => []
  | .stop => []

/-- Backend calls of all commands in a list, in enqueue order, when every call succeeds. -/
def callsOfCmds : List BackendCommand → List BackendCall
  | [] => []
  | cmd :: rest => cmdCallsOk cmd ++ callsOfCmds rest

/-- Success events of all commands in a list, in enqueue order. -/
def eventsOfCmds : List BackendCommand → List BackendEvent
  | [] => []
  | cmd :: rest => cmdEventOk cmd ++ eventsOfCmds rest

/-- The backend calls one command performs under oracle `beh` when the
calls made so far number `c` (a failing `add_session` skips `update_time`). -/
def cmdCallsAt (beh : BackendBeh) (c : Nat) : BackendCommand → List BackendCall
  | .addAction n => [.createAction n]
  | .addSubject n => [.createSubject n]
  | .addSession s t =>
    match beh c with
    | some _ => [.addSession s]
    | none => [.addSession s, .updateTime s.topic t]
  | .stop => []

/-- The events one command gives rise to under oracle `beh` when the sink
is healthy: its success event on success, one `Error` event on failure. -/
def cmdEventsAt (beh : BackendBeh) (c : Nat) : BackendCommand → List BackendEvent
  | .addAction n =>
    match beh c with
    | some m => [.error m]
    | none => [.actionAdded ⟨n⟩]
  | .addSubject n =>
    match beh c with
    | some m => [.error m]
    | none => [.subjectAdded ⟨n⟩]
  | .addSession _ _ =>
    match beh c with
    | some m => [.error m]
    | none =>
      match beh (c + 1) with
      | some m => [.error m]
      | none => []
  | .stop => []

/-- Call and event traces of a command list under oracle `beh` with a
healthy sink, starting after `c` backend calls already made. -/
def traceFrom (beh : BackendBeh) (c : Nat) :
    List BackendCommand → List BackendCall × List BackendEvent
  | [] => ([], [])
  | cmd :: rest =>
    let calls := cmdCallsAt beh c cmd
    let evs := cmdEventsAt beh c cmd
    let r := traceFrom beh (c + calls.length) rest
    (calls ++ r.1, evs ++ r.2)

/-- The durable state of the persistence backend, as far as the claims
observe it: created actions and subjects, the appended session history,
and the per-topic stored cumulative times. -/
structure Store where
  actions : List String
  subjects : List String
  sessions : List Session
  times : List (Setup × SpentTime)
deriving DecidableEq, Repr

/-- Effect of one *successful* backend call on the store: `create_action`
and `create_subject` persist the name, `add_session` appends to history,
`update_time` overwrites the stored cumulative total for the topic. -/
def applyCall (st : Store) : BackendCall → Store
  | .createAction n => { st with actions := st.actions ++ [n] }
  | .createSubject n => { st with subjects := st.subjects ++ [n] }
  | .addSession s => { st with sessions := st.sessions ++ [s] }
  | .updateTime t d =>
    { st with times := (t, d) :: st.times.filter (fun e => ¬ (e.1 == t)) }

/-- Apply a call trace to the store; a call that fails under `beh`
(index counted from `c`) has no durable effect. -/
def applyTrace (beh : BackendBeh) : Store → Nat → List BackendCall → Store
  | st, _, [] => st
  | st, c, call :: rest =>
    let st2 := if (beh c).isNone then applyCall st call else st
    applyTrace beh st2 (c + 1) rest

/-- Concrete time table holding 10 s for the topic (Reading, Math). -/
def ttW : TimeTable :=
  ⟨[(⟨⟨"Reading"⟩, ⟨"Math"⟩⟩, ⟨⟨10000000000⟩⟩)]⟩

/-- Concrete 5-second session on the topic (Reading, Math). -/
def sessW : Session :=
  ⟨⟨"Reading"⟩, ⟨"Math"⟩, ⟨0⟩, ⟨⟨5000000000⟩⟩, ⟨5⟩⟩

/-- Backend oracle example: the first call succeeds, every later call fails. -/
def behSecondFails : BackendBeh :=
  fun k => if k = 0 then none else some "boom"

/-- A store with nothing persisted yet. -/
def storeW : Store :=
  ⟨[], [], [], []⟩

/-- With a healthy sink, the worker loop over a stop-free command list
dequeues every command, performs exactly the calls of `traceFrom`, posts
exactly its events (all delivered), and ends blocked on `recv()` or, when
the channel is closed, in the `expect` panic. -/
theorem workerLoop_noStop (beh : BackendBeh) (closed : Bool) :
    ∀ (cmds : List BackendCommand) (c p : Nat), BackendCommand.stop ∉ cmds →
      workerLoop beh sinkAll closed c p cmds =
        ⟨(traceFrom beh c cmds).1, ((traceFrom beh c cmds).2).map (fun e => (e, true)),
          cmds, [], if closed then .queueClosed else .blocked⟩ := by
  intro cmds
  induction cmds with
  | nil => intro c p _; simp [workerLoop, traceFrom]
  | cons cmd rest ih =>
    intro c p h
    have hrest : BackendCommand.stop ∉ rest := fun hr => h (List.mem_cons_of_mem _ hr)
    have hcmd : cmd ≠ .stop := fun he => h (he ▸ List.mem_cons_self _ _)
    cases cmd with
    | addAction n =>
      cases hbc : beh c with
      | some m =>
        simp [workerLoop, handleCommand, traceFrom, cmdCallsAt, cmdEventsAt, hbc,
          sinkAll, ih _ _ hrest]
      | none =>
        simp [workerLoop, handleCommand, traceFrom, cmdCallsAt, cmdEventsAt, hbc,
          sinkAll, ih _ _ hrest]
    | addSubject n =>
      cases hbc : beh c with
      | some m =>
        simp [workerLoop, handleCommand, traceFrom, cmdCallsAt, cmdEventsAt, hbc,
          sinkAll, ih _ _ hrest]
      | none =>
        simp [workerLoop, handleCommand, traceFrom, cmdCallsAt, cmdEventsAt, hbc,
          sinkAll, ih _ _ hrest]
    | addSession s t =>
      cases hbc : beh c with
      | some m =>
        simp [workerLoop, handleCommand, traceFrom, cmdCallsAt, cmdEventsAt, hbc,
          sinkAll, ih _ _ hrest]
      | none =>
        cases hbc2 : beh (c + 1) with
        | some m =>
          simp [workerLoop, handleCommand, traceFrom, cmdCallsAt, cmdEventsAt, hbc, hbc2,
            sinkAll, ih _ _ hrest]
        | none =>
          simp [workerLoop, handleCommand, traceFrom, cmdCallsAt, cmdEventsAt, hbc, hbc2,
            sinkAll, ih _ _ hrest]
    | stop => exact absurd rfl hcmd

/-- With a healthy sink, the worker loop over `pre ++ Stop :: post` with
stop-free `pre` processes all of `pre` and the `Stop`, makes only the
calls of `pre`, posts only the events of `pre`, and breaks leaving `post`
in the queue. -/
theorem workerLoop_stop (beh : BackendBeh) (closed : Bool) (post : List BackendCommand) :
    ∀ (pre : List BackendCommand) (c p : Nat), BackendCommand.stop ∉ pre →
      workerLoop beh sinkAll closed c p (pre ++ .stop :: post) =
        ⟨(traceFrom beh c pre).1, ((traceFrom beh c pre).2).map (fun e => (e, true)),
          pre ++ [.stop], post, .stopRequested⟩ := by
  intro pre
  induction pre with
  | nil => intro c p _; simp [workerLoop, handleCommand, traceFrom]
  | cons cmd rest ih =>
    intro c p h
    have hrest : BackendCommand.stop ∉ rest := fun hr => h (List.mem_cons_of_mem _ hr)
    have hcmd : cmd ≠ .stop := fun he => h (he ▸ List.mem_cons_self _ _)
    cases cmd with
    | addAction n =>
      cases hbc : beh c with
      | some m =>
        simp [workerLoop, handleCommand, traceFrom, cmdCallsAt, cmdEventsAt, hbc,
          sinkAll, ih _ _ hrest]
      | none =>
        simp [workerLoop, handleCommand, traceFrom, cmdCallsAt, cmdEventsAt, hbc,
          sinkAll, ih _ _ hrest]
    | addSubject n =>
      cases hbc : beh c with
      | some m =>
        simp [workerLoop, handleCommand, traceFrom, cmdCallsAt, cmdEventsAt, hbc,
          sinkAll, ih _ _ hrest]
      | none =>
        simp [workerLoop, handleCommand, traceFrom, cmdCallsAt, cmdEventsAt, hbc,
          sinkAll, ih _ _ hrest]
    | addSession s t =>
      cases hbc : beh c with
      | some m =>
        simp [workerLoop, handleCommand, traceFrom, cmdCallsAt, cmdEventsAt, hbc,
          sinkAll, ih _ _ hrest]
      | none =>
        cases hbc2 : beh (c + 1) with
        | some m =>
          simp [workerLoop, handleCommand, traceFrom, cmdCallsAt, cmdEventsAt, hbc, hbc2,
            sinkAll, ih _ _ hrest]
        | none =>
          simp [workerLoop, handleCommand, traceFrom, cmdCallsAt, cmdEventsAt, hbc, hbc2,
            sinkAll, ih _ _ hrest]
    | stop => exact absurd rfl hcmd

/-- A command whose call indices all succeed under `beh` performs its
success-path calls and events. -/
theorem cmdTraceAt_ok (beh : BackendBeh) (c : Nat) (cmd : BackendCommand)
    (h : ∀ k, c ≤ k → k < c + (cmdCallsOk cmd).length → beh k = none) :
    cmdCallsAt beh c cmd = cmdCallsOk cmd ∧ cmdEventsAt beh c cmd = cmdEventOk cmd := by
  cases cmd with
  | addAction n =>
    have h0 : beh c = none := h c le_rfl (by simp [cmdCallsOk])
    simp [cmdCallsAt, cmdCallsOk, cmdEventsAt, cmdEventOk, h0]
  | addSubject n =>
    have h0 : beh c = none := h c le_rfl (by simp [cmdCallsOk])
    simp [cmdCallsAt, cmdCallsOk, cmdEventsAt, cmdEventOk, h0]
  | addSession s t =>
    have h0 : beh c = none := h c le_rfl (by simp [cmdCallsOk])
    have h1 : beh (c + 1) = none := h (c + 1) (Nat.le_succ c) (by simp [cmdCallsOk])
    simp [cmdCallsAt, cmdCallsOk, cmdEventsAt, cmdEventOk, h0, h1]
  | stop => simp [cmdCallsAt, cmdCallsOk, cmdEventsAt, cmdEventOk]

/-- When every call from index `c` on succeeds, the trace of a command
list is its success-path calls and events. -/
theorem traceFrom_ok_of (beh : BackendBeh) :
    ∀ (cmds : List BackendCommand) (c : Nat), (∀ k, c ≤ k → beh k = none) →
      traceFrom beh c cmds = (callsOfCmds cmds, eventsOfCmds cmds) := by
  intro cmds
  induction cmds with
  | nil => intro c _; simp [traceFrom, callsOfCmds, eventsOfCmds]
  | cons cmd rest ih =>
    intro c h
    have hc := cmdTraceAt_ok beh c cmd (fun k hk _ => h k hk)
    have hnext : ∀ k, c + (cmdCallsOk cmd).length ≤ k → beh k = none :=
      fun k hk => h k (le_trans (Nat.le_add_right c _) hk)
    simp [traceFrom, hc.1, hc.2, ih _ hnext, callsOfCmds, eventsOfCmds]

/-- The all-success oracle's trace is the success-path trace. -/
theorem traceFrom_behOk (cmds : List BackendCommand) (c : Nat) :
    traceFrom behOk c cmds = (callsOfCmds cmds, eventsOfCmds cmds) :=
  traceFrom_ok_of behOk cmds c (fun _ _ => rfl)

/-- No command ever gives rise to a `Stopped` event inside the loop. -/
theorem stopped_not_mem_traceFrom (beh : BackendBeh) :
    ∀ (cmds : List BackendCommand) (c : Nat),
      BackendEvent.stopped ∉ (traceFrom beh c cmds).2 := by
  intro cmds
  induction cmds with
  | nil => intro c; simp [traceFrom]
  | cons cmd rest ih =>
    intro c
    simp only [traceFrom, List.mem_append]
    rintro (hmem | hmem)
    · cases cmd with
      | addAction n =>
        cases hbc : beh c <;> simp [cmdEventsAt, hbc] at hmem
      | addSubject n =>
        cases hbc : beh c <;> simp [cmdEventsAt, hbc] at hmem
      | addSession s t =>
        cases hbc : beh c with
        | some m => simp [cmdEventsAt, hbc] at hmem
        | none => cases hbc2 : beh (c + 1) <;> simp [cmdEventsAt, hbc, hbc2] at hmem
      | stop => simp [cmdEventsAt] at hmem
    · exact ih _ hmem

/-- Success events are `ActionAdded`/`SubjectAdded` only: never an `Error`. -/
theorem error_not_mem_eventsOfCmds (msg : String) :
    ∀ cmds : List BackendCommand, BackendEvent.error msg ∉ eventsOfCmds cmds := by
  intro cmds
  induction cmds with
  | nil => simp [eventsOfCmds]
  | cons cmd rest ih =>
    simp only [eventsOfCmds, List.mem_append]
    rintro (hmem | hmem)
    · cases cmd <;> simp [cmdEventOk] at hmem
    · exact ih hmem

/-- Success events are never a `Stopped` event either. -/
theorem stopped_not_mem_eventsOfCmds :
    ∀ cmds : List BackendCommand, BackendEvent.stopped ∉ eventsOfCmds cmds := by
  intro cmds
  induction cmds with
  | nil => simp [eventsOfCmds]
  | cons cmd rest ih =>
    simp only [eventsOfCmds, List.mem_append]
    rintro (hmem | hmem)
    · cases cmd <;> simp [cmdEventOk] at hmem
    · exact ih hmem

/-- Under the oracle failing exactly at call index `n`, a stop-free
command list whose call span covers `n` splits into the commands before
the failing one, the failing command, and the commands after it: the
event trace is their success events with exactly one `Error` in between. -/
theorem traceFrom_failAt (n : Nat) (msg : String) :
    ∀ (cmds : List BackendCommand) (c : Nat), BackendCommand.stop ∉ cmds →
      c ≤ n → n < c + (callsOfCmds cmds).length →
      ∃ pre cmd post, cmds = pre ++ cmd :: post ∧
        (traceFrom (failOnlyAt n msg) c cmds).2 =
          eventsOfCmds pre ++ BackendEvent.error msg :: eventsOfCmds post := by
  intro cmds
  induction cmds with
  | nil =>
    intro c _ hle hlt
    simp [callsOfCmds] at hlt
    exact absurd hlt (Nat.not_lt.mpr hle)
  | cons cmd rest ih =>
    intro c h hle hlt
    have hrest : BackendCommand.stop ∉ rest := fun hr => h (List.mem_cons_of_mem _ hr)
    have hcmd : cmd ≠ .stop := fun he => h (he ▸ List.mem_cons_self _ _)
    by_cases hin : n < c + (cmdCallsOk cmd).length
    · -- the failing call belongs to `cmd`
      refine ⟨[], cmd, rest, rfl, ?_⟩
      have hrestOk :
          traceFrom (failOnlyAt n msg) (n + 1) rest = (callsOfCmds rest, eventsOfCmds rest) :=
        traceFrom_ok_of _ rest (n + 1)
          (fun k hk => by
            have : k ≠ n := by omega
            simp [failOnlyAt, this])
      cases cmd with
      | addAction nm =>
        have hn : n = c := by simp [cmdCallsOk] at hin; omega
        subst hn
        have hbc : failOnlyAt n msg n = some msg := by simp [failOnlyAt]
        simp [traceFrom, cmdEventsAt, cmdCallsAt, hbc, eventsOfCmds, hrestOk]
      | addSubject nm =>
        have hn : n = c := by simp [cmdCallsOk] at hin; omega
        subst hn
        have hbc : failOnlyAt n msg n = some msg := by simp [failOnlyAt]
        simp [traceFrom, cmdEventsAt, cmdCallsAt, hbc, eventsOfCmds, hrestOk]
      | addSession s t =>
        have hn : n = c ∨ n = c + 1 := by simp [cmdCallsOk] at hin; omega
        rcases hn with hn | hn
        · subst hn
          have hbc : failOnlyAt n msg n = some msg := by simp [failOnlyAt]
          simp [traceFrom, cmdEventsAt, cmdCallsAt, hbc, eventsOfCmds, hrestOk]
        · subst hn
          have hbc : failOnlyAt (c + 1) msg c = none := by simp [failOnlyAt]
          have hbc2 : failOnlyAt (c + 1) msg (c + 1) = some msg := by simp [failOnlyAt]
          simp [traceFrom, cmdEventsAt, cmdCallsAt, hbc, hbc2, eventsOfCmds, hrestOk]
      | stop => exact absurd rfl hcmd
    · -- every call of `cmd` succeeds; the failing call is further on
      have hok := cmdTraceAt_ok (failOnlyAt n msg) c cmd
        (fun k _ hk2 => by
          have : k ≠ n := by omega
          simp [failOnlyAt, this])
      have hle2 : c + (cmdCallsOk cmd).length ≤ n := Nat.not_lt.mp hin
      have hlt2 : n < c + (cmdCallsOk cmd).length + (callsOfCmds rest).length := by
        simp [callsOfCmds] at hlt
        omega
      obtain ⟨pre, fcmd, post, hsplit, htr⟩ :=
        ih (c + (cmdCallsOk cmd).length) hrest hle2 hlt2
      refine ⟨cmd :: pre, fcmd, post, by simp [hsplit], ?_⟩
      simp [traceFrom, hok.1, hok.2, htr, eventsOfCmds]

/-- Delivered events containing no `Stopped` filter to nothing under the
stopped-filter. -/
theorem filter_stopped_map (l : List BackendEvent) (h : BackendEvent.stopped ∉ l) :
    (l.map (fun e => (e, true))).filter (fun q => q.1 == BackendEvent.stopped) = [] := by
  induction l with
  | nil => rfl
  | cons e rest ih =>
    have he : e ≠ .stopped := fun hh => h (hh ▸ List.mem_cons_self _ _)
    have hrest := ih (fun hr => h (List.mem_cons_of_mem _ hr))
    simpa [he] using hrest

/-- Delivered events containing no `Error` filter to nothing under the
error-filter. -/
theorem filter_error_map (l : List BackendEvent) (h : ∀ m, BackendEvent.error m ∉ l) :
    (l.map (fun e => (e, true))).filter
      (fun q => match q.1 with | BackendEvent.error _ => true | _ => false) = [] := by
  induction l with
  | nil => rfl
  | cons e rest ih =>
    have hrest := ih (fun m hr => h m (List.mem_cons_of_mem _ hr))
    cases e with
    | error m => exact absurd (List.mem_cons_self _ _) (h m)
    | actionAdded a => simpa using hrest
    | subjectAdded s => simpa using hrest
    | stopped => simpa using hrest

/-- C1: for any stop-free sequence of commands enqueued by a single
producer, run against an all-success test-double backend with a healthy
sink, the worker dequeues every command (in order) and the backend-call
trace is, in order, the concatenation of each command's calls
(`create_action` / `create_subject` / `add_session`+`update_time`) in
enqueue order — one command fully executed before the next is dequeued,
with no reordering or batching across command types. -/
theorem backend_calls_in_enqueue_order (cmds : List BackendCommand) (closed : Bool)
    (h : BackendCommand.stop ∉ cmds) :
    (workerThread behOk sinkAll closed cmds).calls = callsOfCmds cmds ∧
    (workerThread behOk sinkAll closed cmds).processed = cmds := by
  unfold workerThread
  rw [workerLoop_noStop behOk closed cmds 0 0 h]
  cases closed <;> simp [traceFrom_behOk]

theorem backend_calls_in_enqueue_order_witness :
    (workerThread behOk sinkAll false
        [.addAction "Reading", .addSubject "Math"]).calls =
      [.createAction "Reading", .createSubject "Math"] := by
  have h := backend_calls_in_enqueue_order
    [.addAction "Reading", .addSubject "Math"] false (by decide)
  exact h.1.trans (by rfl)

/-- C2: once `Stop` is dequeued (with a healthy sink), no backend call is
made for it (the calls are exactly those of the preceding commands),
every command enqueued before it is dequeued and executed, no command
enqueued after it is ever dequeued, exactly one `Stopped` event is
posted, and the loop breaks so the thread terminates. -/
theorem stop_is_terminal (pre post : List BackendCommand) (beh : BackendBeh)
    (closed : Bool) (h : BackendCommand.stop ∉ pre) :
    (workerThread beh sinkAll closed (pre ++ .stop :: post)).processed = pre ++ [.stop] ∧
    (workerThread beh sinkAll closed (pre ++ .stop :: post)).remaining = post ∧
    (workerThread beh sinkAll closed (pre ++ .stop :: post)).calls =
      (traceFrom beh 0 pre).1 ∧
    (workerThread beh sinkAll closed (pre ++ .stop :: post)).posts.filter
        (fun q => q.1 == BackendEvent.stopped) = [(BackendEvent.stopped, true)] ∧
    (workerThread beh sinkAll closed (pre ++ .stop :: post)).outcome = .stopRequested := by
  unfold workerThread
  rw [workerLoop_stop beh closed post pre 0 0 h]
  refine ⟨rfl, rfl, rfl, ?_, rfl⟩
  simp only [sinkAll, List.filter_append,
    filter_stopped_map _ (stopped_not_mem_traceFrom beh pre 0)]
  simp

theorem stop_is_terminal_witness :
    (workerThread behOk sinkAll false
        [.addAction "a", .stop, .addAction "b"]).remaining = [.addAction "b"] ∧
    (workerThread behOk sinkAll false
        [.addAction "a", .stop, .addAction "b"]).processed = [.addAction "a", .stop] := by
  have h := stop_is_terminal [.addAction "a"] [.addAction "b"] behOk false (by decide)
  exact ⟨h.2.1, h.1⟩

/-- C3: with a healthy sink, if exactly the n-th backend call fails (with
message `msg`) in a stop-free command stream whose calls cover index n,
the worker still dequeues and executes every command, posts exactly one
`Error` event carrying `msg`, and posts the corresponding success event
of every other command, in order. -/
theorem command_errors_nonfatal (cmds : List BackendCommand) (n : Nat) (msg : String)
    (closed : Bool) (hstop : BackendCommand.stop ∉ cmds)
    (hn : n < (callsOfCmds cmds).length) :
    (workerThread (failOnlyAt n msg) sinkAll closed cmds).processed = cmds ∧
    (workerThread (failOnlyAt n msg) sinkAll closed cmds).posts.filter
        (fun q => match q.1 with | BackendEvent.error _ => true | _ => false) =
      [(BackendEvent.error msg, true)] ∧
    ∃ pre cmd post, cmds = pre ++ cmd :: post ∧
      (workerThread (failOnlyAt n msg) sinkAll closed cmds).posts =
        (eventsOfCmds pre ++ BackendEvent.error msg :: eventsOfCmds post).map
          (fun e => (e, true)) := by
  obtain ⟨pre, cmd, post, hsplit, htr⟩ :=
    traceFrom_failAt n msg cmds 0 hstop (Nat.zero_le n) (by simpa using hn)
  have hloop := workerLoop_noStop (failOnlyAt n msg) closed cmds 0 0 hstop
  have hposts :
      (workerThread (failOnlyAt n msg) sinkAll closed cmds).posts =
        (eventsOfCmds pre ++ BackendEvent.error msg :: eventsOfCmds post).map
          (fun e => (e, true)) := by
    unfold workerThread
    rw [hloop]
    cases closed <;> simp [htr]
  have hproc : (workerThread (failOnlyAt n msg) sinkAll closed cmds).processed = cmds := by
    unfold workerThread
    rw [hloop]
    cases closed <;> simp
  refine ⟨hproc, ?_, pre, cmd, post, hsplit, hposts⟩
  rw [hposts]
  rw [List.map_append, List.filter_append,
    filter_error_map _ (fun m => error_not_mem_eventsOfCmds m pre)]
  simp only [List.map_cons, List.filter_cons, List.nil_append]
  simpa using filter_error_map _ (fun m => error_not_mem_eventsOfCmds m post)

theorem command_errors_nonfatal_witness :
    (workerThread (failOnlyAt 0 "boom") sinkAll false
        [.addAction "X", .addAction "Y"]).processed =
      [.addAction "X", .addAction "Y"] ∧
    (workerThread (failOnlyAt 0 "boom") sinkAll false
        [.addAction "X", .addAction "Y"]).posts.filter
        (fun q => match q.1 with | BackendEvent.error _ => true | _ => false) =
      [(BackendEvent.error "boom", true)] := by
  have h := command_errors_nonfatal [.addAction "X", .addAction "Y"] 0 "boom" false
    (by decide) (by decide)
  exact ⟨h.1, h.2.1⟩

/-- C4 counterexample: a Running worker (it has just executed a command)
whose channel is then closed unexpectedly ends in the `recv().expect`
panic, and its post trace contains no `Stopped` event at all — contrary
to the claim that a `Stopped` event is emitted before the thread exits. -/
theorem queue_closed_cex :
    (workerThread behOk sinkAll true [.addAction "a"]).outcome =
      LoopOutcome.queueClosed ∧
    (workerThread behOk sinkAll true [.addAction "a"]).posts =
      [(.actionAdded ⟨"a"⟩, true)] := ⟨rfl, rfl⟩

/-- C4 amended: if the command channel is closed unexpectedly (outside an
explicit `Stop`) the worker treats this as unrecoverable — the
`recv().expect(..)` panics — terminating the loop and the thread, and
the thread's unwinding skips the `Stopped` submit: no `Stopped` event is
ever posted on this path. -/
theorem queue_closed_panics_without_stopped (cmds : List BackendCommand)
    (beh : BackendBeh) (h : BackendCommand.stop ∉ cmds) :
    (workerThread beh sinkAll true cmds).outcome = LoopOutcome.queueClosed ∧
    ∀ b, (BackendEvent.stopped, b) ∉ (workerThread beh sinkAll true cmds).posts := by
  have hrun : workerThread beh sinkAll true cmds =
      ⟨(traceFrom beh 0 cmds).1, ((traceFrom beh 0 cmds).2).map (fun e => (e, true)),
        cmds, [], .queueClosed⟩ := by
    unfold workerThread
    rw [workerLoop_noStop beh true cmds 0 0 h]
    rfl
  rw [hrun]
  refine ⟨rfl, ?_⟩
  intro b hb
  have hb2 : (BackendEvent.stopped, b) ∈
      ((traceFrom beh 0 cmds).2).map (fun e => (e, true)) := hb
  simp only [List.mem_map] at hb2
  obtain ⟨e, he, heq⟩ := hb2
  have he2 : e = BackendEvent.stopped := congrArg Prod.fst heq
  exact stopped_not_mem_traceFrom beh cmds 0 (he2 ▸ he)

theorem queue_closed_panics_without_stopped_witness :
    (workerThread behOk sinkAll true [.addAction "a"]).outcome =
      LoopOutcome.queueClosed ∧
    (BackendEvent.stopped, true) ∉ (workerThread behOk sinkAll true [.addAction "a"]).posts := by
  have h := queue_closed_panics_without_stopped [.addAction "a"] behOk (by decide)
  exact ⟨h.1, h.2 true⟩

/-- C5: the `ADD_SESSION` arm of the controller shim enqueues
`AddSession(session, total)` where `total` is the aggregate currently
stored for the session's topic plus the session's duration, computed at
enqueue time; on a successful `AddSession` the worker calls
`add_session` then `update_time` with that carried total unchanged
(whatever the backend oracle is elsewhere) and posts no event. -/
theorem addSession_carries_precomputed_total (tt : TimeTable) (s : Session)
    (beh : BackendBeh) (sinkOk : SinkBeh) (c p : Nat)
    (h1 : beh c = none) (h2 : beh (c + 1) = none) :
    controllerAddSession tt s =
      BackendCommand.addSession s
        ((tt.get s.topic.action s.topic.subject).add s.duration) ∧
    (handleCommand beh sinkOk c p (controllerAddSession tt s)).calls =
      [BackendCall.addSession s,
       BackendCall.updateTime s.topic
         ((tt.get s.topic.action s.topic.subject).add s.duration)] ∧
    (handleCommand beh sinkOk c p (controllerAddSession tt s)).posts = [] ∧
    (handleCommand beh sinkOk c p (controllerAddSession tt s)).result = .ok .yes := by
  refine ⟨rfl, ?_, ?_, ?_⟩ <;> simp [controllerAddSession, handleCommand, h1, h2]

theorem addSession_carries_precomputed_total_witness :
    (handleCommand behOk sinkAll 0 0 (controllerAddSession ttW sessW)).calls =
      [BackendCall.addSession sessW,
       BackendCall.updateTime ⟨⟨"Reading"⟩, ⟨"Math"⟩⟩ ⟨⟨15000000000⟩⟩] ∧
    (handleCommand behOk sinkAll 0 0 (controllerAddSession ttW sessW)).posts = [] := by
  have h := addSession_carries_precomputed_total ttW sessW behOk sinkAll 0 0 rfl rfl
  exact ⟨h.2.1.trans (by decide), h.2.2.1⟩

/-- C6: when the backend call of the first command fails and posting the
resulting `Error` event fails too (`sinkOk 0 = false`), the worker logs
and terminates the loop early — the remaining commands are never
dequeued — and then still attempts the final `Stopped` post, whose own
success or failure (`sinkOk 1`) changes nothing else: it is never
escalated. -/
theorem sink_failure_terminates_loop (nm : String) (rest : List BackendCommand)
    (msg : String) (sinkOk : SinkBeh) (closed : Bool) (h0 : sinkOk 0 = false) :
    (workerThread (fun k => if k = 0 then some msg else none) sinkOk closed
        (.addAction nm :: rest)).processed = [.addAction nm] ∧
    (workerThread (fun k => if k = 0 then some msg else none) sinkOk closed
        (.addAction nm :: rest)).remaining = rest ∧
    (workerThread (fun k => if k = 0 then some msg else none) sinkOk closed
        (.addAction nm :: rest)).outcome = .sinkClosed ∧
    (workerThread (fun k => if k = 0 then some msg else none) sinkOk closed
        (.addAction nm :: rest)).posts =
      [(.error msg, false), (.stopped, sinkOk 1)] := by
  refine ⟨?_, ?_, ?_, ?_⟩ <;>
    simp [workerThread, workerLoop, handleCommand, h0]

theorem sink_failure_terminates_loop_witness :
    (workerThread (fun k => if k = 0 then some "boom" else none) (fun _ => false) false
        [.addAction "X", .addAction "Y"]).remaining = [.addAction "Y"] ∧
    (workerThread (fun k => if k = 0 then some "boom" else none) (fun _ => false) false
        [.addAction "X", .addAction "Y"]).posts =
      [(.error "boom", false), (.stopped, false)] := by
  have h := sink_failure_terminates_loop "X" [.addAction "Y"] "boom"
    (fun _ => false) false rfl
  exact ⟨h.2.1, h.2.2.2⟩

/-- C7: a `setup()` failure (modelled by `setupErr = some e`) aborts
`BackendController::init` before the worker thread is spawned: the
failure is surfaced to the caller of the startup routine as the panic
value, no worker run exists, so no command is ever dequeued or executed
and nothing is posted through the sink. -/
theorem setup_failure_fatal (e : String) (beh : BackendBeh) (sinkOk : SinkBeh)
    (closed : Bool) (cmds : List BackendCommand) :
    initBackend none (some e) beh sinkOk closed cmds = Except.error e ∧
    ∀ run : WorkerRun, initBackend none (some e) beh sinkOk closed cmds ≠ Except.ok run := by
  refine ⟨rfl, ?_⟩
  intro run hrun
  simp [initBackend] at hrun

/-- C8: a `SpentTime` holding `s` whole seconds renders exactly as
`s / 3600`, then "h ", then `(s / 60) % 60`, then "m ", then `s % 60`,
then "s" (integer arithmetic), and `Data::same` change detection holds
iff the whole-second counts are equal, so sub-second differences are
never a change. -/
theorem spentTime_display_and_same (t a b : SpentTime) :
    t.display =
      toString (t.asSecs / 3600) ++ "h " ++ toString ((t.asSecs / 60) % 60) ++ "m " ++
        toString (t.asSecs % 60) ++ "s" ∧
    (a.same b = true ↔ a.asSecs = b.asSecs) := by
  constructor
  · have h3600 : t.dur.asSecs / 60 / 60 = t.dur.asSecs / 3600 := by
      rw [Nat.div_div_eq_div_mul]
    simp [SpentTime.display, SpentTime.asSecs, h3600]
  · simp [SpentTime.same, SpentTime.asSecs]

/-- C9: a topic with no entry in the time table reads back as the default
`SpentTime` of zero duration — `get` does not fail or signal absence —
and that default renders as 0h 0m 0s. -/
theorem timeTable_get_missing_default (tt : TimeTable) (a : Action) (s : Subject)
    (h : ∀ e ∈ tt.entries, e.1 ≠ Setup.mk a s) :
    tt.get a s = SpentTime.default ∧ (tt.get a s).display = "0h 0m 0s" := by
  have hfind : tt.entries.find? (fun e => e.1 == Setup.mk a s) = none := by
    rw [List.find?_eq_none]
    intro x hx
    simpa using h x hx
  have hget : tt.get a s = SpentTime.default := by
    simp [TimeTable.get, hfind]
  exact ⟨hget, by rw [hget]; rfl⟩

theorem timeTable_get_missing_default_witness :
    TimeTable.get ⟨[]⟩ ⟨"Reading"⟩ ⟨"Math"⟩ = SpentTime.default ∧
    (TimeTable.get ⟨[]⟩ ⟨"Reading"⟩ ⟨"Math"⟩).display = "0h 0m 0s" :=
  timeTable_get_missing_default ⟨[]⟩ ⟨"Reading"⟩ ⟨"Math"⟩ (by simp)

/-- C10: within one `AddSession` command, `add_session` always comes
strictly before `update_time` (the call trace is one of the two
prefixes); if `add_session` fails, `update_time` is never invoked for
that command; and if `update_time` fails after `add_session` succeeded,
the command errors but the appended session record stays in the durable
store — the command's effects are not atomic. -/
theorem addSession_order_no_rollback (s : Session) (total : SpentTime)
    (beh : BackendBeh) (sinkOk : SinkBeh) (c p : Nat) (msg : String) (st : Store) :
    ((handleCommand beh sinkOk c p (.addSession s total)).calls = [.addSession s] ∨
     (handleCommand beh sinkOk c p (.addSession s total)).calls =
       [.addSession s, .updateTime s.topic total]) ∧
    (beh c = some msg →
      (handleCommand beh sinkOk c p (.addSession s total)).calls = [.addSession s]) ∧
    (beh c = none → beh (c + 1) = some msg →
      (handleCommand beh sinkOk c p (.addSession s total)).result = Except.error msg ∧
      (applyTrace beh st c
          (handleCommand beh sinkOk c p (.addSession s total)).calls).sessions =
        st.sessions ++ [s]) := by
  refine ⟨?_, ?_, ?_⟩
  · cases hbc : beh c with
    | some m => left; simp [handleCommand, hbc]
    | none =>
      right
      cases hbc2 : beh (c + 1) <;> simp [handleCommand, hbc, hbc2]
  · intro hbc
    simp [handleCommand, hbc]
  · intro h1 h2
    simp [handleCommand, h1, h2, applyTrace, applyCall]

theorem addSession_order_no_rollback_witness :
    (applyTrace behSecondFails storeW 0
        (handleCommand behSecondFails sinkAll 0 0 (.addSession sessW ⟨⟨0⟩⟩)).calls).sessions =
      [sessW] := by
  have h := (addSession_order_no_rollback sessW ⟨⟨0⟩⟩ behSecondFails sinkAll 0 0
    "boom" storeW).2.2 rfl rfl
  simpa [storeW] using h.2

end Zeitig
